import Mathlib

/-!
# Verification of the `dmerg` log-capture-and-merge tool

Shallow embedding of `src/main.rs` (the only source file).  The embedded
functions keep the source's names.  Strings are handled at the `List Char`
level; Rust's `Option<Result<String, io::Error>>` line values are modelled
as `Option (Except Unit String)` (the io-error payload is irrelevant).

Modelling notes, applying to the whole file:
* Rust's `char::is_whitespace` is modelled on the ASCII whitespace
  characters, the only ones that occur in the logs handled by the tool.
* `chrono::DateTime::parse_from_str` with the fixed format string
  `%Y-%m-%dT%H:%M:%S%.6f%z` (the external `chrono` crate is not part of
  this repository) is modelled by `chronoParse`: fixed-width numeric
  fields, an optional dot followed by exactly six fractional digits, and
  a numeric UTC offset with an optional colon, with calendar validation.
  Comparison of two parsed values is by absolute instant (`instantMicros`),
  as `chrono` compares `DateTime<FixedOffset>` values.
* A Rust `panic!`/`unwrap()` failure is modelled as an explicit result
  constructor; file content already written before a panic is not modelled.
-/

/-- ASCII model of Rust's `char::is_whitespace`. -/
def isWs (c : Char) : Bool :=
  c = ' ' || c = '\t' || c = '\n' || c = '\r'

/-- Accumulator-based splitter behind `splitWsC`; `acc` holds the current
token reversed. Models Rust's `str::split_whitespace` (empty tokens are
never produced). -/
def splitWsAux : List Char → List Char → List (List Char)
  | [], acc => if acc.isEmpty then [] else [acc.reverse]
  | c :: cs, acc =>
    if isWs c then
      if acc.isEmpty then splitWsAux cs [] else acc.reverse :: splitWsAux cs []
    else
      splitWsAux cs (c :: acc)

/-- `str::split_whitespace` on a character list. -/
def splitWsC (cs : List Char) : List (List Char) :=
  splitWsAux cs []

/-- `str::replace(",", ".")`: every comma is substituted by a dot. -/
def replaceCommaDotC (cs : List Char) : List Char :=
  cs.map fun c => if c = ',' then '.' else c

/-- `Vec::join(" ")` on tokens given as character lists. -/
def joinSpaceC : List (List Char) → List Char
  | [] => []
  | [t] => t
  | t :: ts => t ++ ' ' :: joinSpaceC ts

/-- A parsed `chrono::DateTime<FixedOffset>`: calendar fields plus the
fixed offset in minutes east of UTC. -/
structure Ts where
  year : Nat
  month : Nat
  day : Nat
  hour : Nat
  minute : Nat
  second : Nat
  micro : Nat
  offMin : Int
deriving DecidableEq, Repr

def isLeap (y : Nat) : Bool :=
  (y % 4 = 0 && y % 100 ≠ 0) || y % 400 = 0

def daysInMonth (y m : Nat) : Nat :=
  match m with
  | 1 => 31 | 2 => if isLeap y then 29 else 28 | 3 => 31 | 4 => 30
  | 5 => 31 | 6 => 30 | 7 => 31 | 8 => 31 | 9 => 30 | 10 => 31
  | 11 => 30 | 12 => 31
  | _ => 0

/-- Days contributed by the full months preceding month `m` of year `y`. -/
def daysBeforeMonth (y m : Nat) : Nat :=
  let leapAdd := if isLeap y then 1 else 0
  match m with
  | 1 => 0 | 2 => 31 | 3 => 59 + leapAdd | 4 => 90 + leapAdd
  | 5 => 120 + leapAdd | 6 => 151 + leapAdd | 7 => 181 + leapAdd
  | 8 => 212 + leapAdd | 9 => 243 + leapAdd | 10 => 273 + leapAdd
  | 11 => 304 + leapAdd | 12 => 334 + leapAdd
  | _ => 0

/-- Days in years `0, …, y-1` of the proleptic Gregorian calendar. -/
def daysBeforeYear (y : Nat) : Nat :=
  365 * y + (y + 3) / 4 - (y + 99) / 100 + (y + 399) / 400

/-- The absolute instant, in microseconds since the calendar origin,
encoded by a `Ts`.  Two `chrono` values compare by absolute instant. -/
def Ts.instantMicros (t : Ts) : Int :=
  (((daysBeforeYear t.year + daysBeforeMonth t.year t.month + (t.day - 1)) * 86400
      + t.hour * 3600 + t.minute * 60 + t.second : Nat) : Int) * 1000000
    + (t.micro : Int) - t.offMin * 60000000

def digitVal? (c : Char) : Option Nat :=
  if '0' ≤ c ∧ c ≤ '9' then some (c.toNat - 48) else none

def read2 : List Char → Option (Nat × List Char)
  | a :: b :: rest => do
    let x ← digitVal? a
    let y ← digitVal? b
    pure (10 * x + y, rest)
  | _ => none

def read4 : List Char → Option (Nat × List Char)
  | a :: b :: c :: d :: rest => do
    let x ← digitVal? a
    let y ← digitVal? b
    let z ← digitVal? c
    let w ← digitVal? d
    pure (1000 * x + 100 * y + 10 * z + w, rest)
  | _ => none

def read6 : List Char → Option (Nat × List Char)
  | a :: b :: c :: d :: e :: f :: rest => do
    let x ← digitVal? a
    let y ← digitVal? b
    let z ← digitVal? c
    let w ← digitVal? d
    let v ← digitVal? e
    let u ← digitVal? f
    pure (100000 * x + 10000 * y + 1000 * z + 100 * w + 10 * v + u, rest)
  | _ => none

def expectC (c : Char) : List Char → Option (List Char)
  | x :: rest => if x = c then some rest else none
  | [] => none

/-- `%Y-%m-%d` part: year, month, day. -/
def parseDate (cs : List Char) : Option (Nat × Nat × Nat × List Char) := do
  let (y, r1) ← read4 cs
  let r2 ← expectC '-' r1
  let (mo, r3) ← read2 r2
  let r4 ← expectC '-' r3
  let (d, r5) ← read2 r4
  pure (y, mo, d, r5)

/-- `T%H:%M:%S` part: hour, minute, second. -/
def parseTime (cs : List Char) : Option (Nat × Nat × Nat × List Char) := do
  let r6 ← expectC 'T' cs
  let (h, r7) ← read2 r6
  let r8 ← expectC ':' r7
  let (mi, r9) ← read2 r8
  let r10 ← expectC ':' r9
  let (sec, r11) ← read2 r10
  pure (h, mi, sec, r11)

/-- `%.6f` part: an optional dot followed by exactly six fractional
digits; absent fraction means zero microseconds. -/
def parseFrac (cs : List Char) : Option (Nat × List Char) :=
  match cs with
  | '.' :: rest => read6 rest
  | _ => some (0, cs)

/-- `%z` part: a sign, two offset-hour digits, an optional colon, and two
offset-minute digits; the result is the offset in minutes east of UTC. -/
def parseOffset (cs : List Char) : Option (Int × List Char) := do
  let (sgn, r13) ←
    match cs with
    | '+' :: rest => some ((1 : Int), rest)
    | '-' :: rest => some ((-1 : Int), rest)
    | _ => (none : Option (Int × List Char))
  let (oh, r14) ← read2 r13
  let r15 :=
    match r14 with
    | ':' :: rest => rest
    | _ => r14
  let (om, r16) ← read2 r15
  if oh ≤ 23 ∧ om ≤ 59 then pure (sgn * (oh * 60 + om), r16) else none

/-- Validity of the calendar fields, as `chrono` checks them when
resolving parsed fields to a `DateTime`. -/
def fieldsValid (y mo d h mi sec : Nat) : Prop :=
  1 ≤ mo ∧ mo ≤ 12 ∧ 1 ≤ d ∧ d ≤ daysInMonth y mo ∧ h ≤ 23 ∧ mi ≤ 59 ∧ sec ≤ 59

instance (y mo d h mi sec : Nat) : Decidable (fieldsValid y mo d h mi sec) := by
  unfold fieldsValid; infer_instance

/-- `chrono::DateTime::parse_from_str(_, "%Y-%m-%dT%H:%M:%S%.6f%z")`
modelled on a character list (see the header note).  Returns `none` on a
malformed token or one not resolvable to a valid fixed-offset instant. -/
def chronoParse (cs : List Char) : Option Ts := do
  let (y, mo, d, r1) ← parseDate cs
  let (h, mi, sec, r2) ← parseTime r1
  let (micro, r3) ← parseFrac r2
  let (offMin, r4) ← parseOffset r3
  match r4 with
  | [] =>
    if fieldsValid y mo d h mi sec then
      some ⟨y, mo, d, h, mi, sec, micro, offMin⟩
    else none
  | _ => none

/-- The code's timestamp normalisation applied to one whitespace-delimited
token: substitute `,` by `.`, then parse (main.rs line 281). -/
def tokenParse (s : String) : Option Ts :=
  chronoParse (replaceCommaDotC s.data)

/-- Digit character of `n % 10`. -/
def digitChar (n : Nat) : Char :=
  match n % 10 with
  | 0 => '0' | 1 => '1' | 2 => '2' | 3 => '3' | 4 => '4'
  | 5 => '5' | 6 => '6' | 7 => '7' | 8 => '8'
  | _ => '9'

def pad2c (n : Nat) : List Char := [digitChar (n / 10), digitChar n]

def pad4c (n : Nat) : List Char :=
  [digitChar (n / 1000), digitChar (n / 100), digitChar (n / 10), digitChar n]

def pad6c (n : Nat) : List Char :=
  [digitChar (n / 100000), digitChar (n / 10000), digitChar (n / 1000),
   digitChar (n / 100), digitChar (n / 10), digitChar n]

/-- `date.format(TIME_FORMAT).to_string()` with
`TIME_FORMAT = "%Y-%m-%dT%H:%M:%S%.6f%z"`: fixed-width fields, a dot
before six fractional digits, and a `+HHMM`/`-HHMM` offset. -/
def formatTsC (t : Ts) : List Char :=
  pad4c t.year ++ '-' :: pad2c t.month ++ '-' :: pad2c t.day
    ++ 'T' :: pad2c t.hour ++ ':' :: pad2c t.minute ++ ':' :: pad2c t.second
    ++ '.' :: pad6c t.micro
    ++ (if t.offMin < 0 then '-' else '+')
        :: (pad2c (t.offMin.natAbs / 60) ++ pad2c (t.offMin.natAbs % 60))

def formatTs (t : Ts) : String := String.mk (formatTsC t)

/-- Result of `get_line_split` (main.rs 253-285).  `panic` models the
`split.next().unwrap()` panic that occurs when the line has no
whitespace-delimited token at all; `err` models the `Err(anyhow!(..))`
returns (absent line, io error, or timestamp parse failure). -/
inductive LineRes where
  | panic
  | err
  | ok (ts : Ts) (msg : String)
deriving DecidableEq, Repr

/-- `get_line_split(line: &Option<Result<String, io::Error>>)`:
split the line on whitespace, take the first token as the timestamp
(panicking when there is none), join the remaining tokens with single
spaces, and parse the timestamp after substituting `,` by `.`. -/
def get_line_split (line : Option (Except Unit String)) : LineRes :=
  match line with
  | none => .err
  | some (.error _) => .err
  | some (.ok v) =>
    match splitWsC v.data with
    | [] => .panic
    | date :: rest =>
      match chronoParse (replaceCommaDotC date) with
      | some ts => .ok ts (String.mk (joinSpaceC rest))
      | none => .err

/-- `get_line` (main.rs 234-251): return the raw line text, or an error
when there is no line or the read failed. -/
def get_line (line : Option (Except Unit String)) : Except Unit String :=
  match line with
  | some (.ok v) => .ok v
  | some (.error _) => .error ()
  | none => .error ()

/-- Timestamp of a (pure) line as the merge and capture code see it. -/
def lineTs (l : String) : Option Ts :=
  match get_line_split (some (.ok l)) with
  | .ok ts _ => some ts
  | _ => none

/-- Whether `get_line_split` returns the soft `Err` on this line. -/
def lineErrB (l : String) : Bool :=
  match get_line_split (some (.ok l)) with
  | .err => true
  | _ => false

/-! ## Kernel-log capture (`collect_syslog`, main.rs 61-141)

Only the per-line filtering and serialisation step (lines 112-127) is
pure; the process/thread plumbing around it is not modelled.  Each
received line is parsed; a parse `Err` drops the line silently, a parse
panic kills the capture thread, and a parsed record is written (and
echoed unless `console_off`) exactly when `full || date >= ctime_dt`. -/

inductive SyslogDisposition where
  | panic
  | dropped
  | filtered
  | written (s : String)
deriving DecidableEq, Repr

/-- Disposition of one incoming facility line in `collect_syslog`'s loop:
`full` is the `--full` flag and `ctime_dt` the session start instant. -/
def collect_syslog_line (full : Bool) (ctime_dt : Ts) (line : String) : SyslogDisposition :=
  match get_line_split (some (.ok line)) with
  | .panic => .panic
  | .err => .dropped
  | .ok date msg =>
    if full || decide (ctime_dt.instantMicros ≤ date.instantMicros) then
      .written (formatTs date ++ " " ++ msg)
    else
      .filtered

/-- Whether the line is echoed to the console: only a written record is
echoed, and only when `console_off` is not set (main.rs 119-122). -/
def collect_syslog_echoed (full console_off : Bool) (ctime_dt : Ts) (line : String) : Bool :=
  match collect_syslog_line full ctime_dt line with
  | .written _ => !console_off
  | _ => false

/-! ## Chronological merge (`merge_logs`, main.rs 287-371)

The two inputs are the closed temporary logs, modelled as the lists of
their lines (io read errors are not modelled, so every line the iterators
yield is `Ok`).  The result is `none` when `get_line_split` panics during
look-ahead (an empty line); the partially written output of a panicked
run is not modelled. -/

/-- One look-ahead pull (`lines.next()` + `get_line_split`): `none` means
the thread panicked; `some none` means the source is treated as ended
(no next line, or its timestamp failed to parse); `some (some _)` carries
the pending candidate line, its timestamp, and the rest of the source. -/
def fetchParse : List String → Option (Option (String × Ts × List String))
  | [] => some none
  | l :: rest =>
    match get_line_split (some (.ok l)) with
    | .panic => none
    | .err => some none
    | .ok ts _ => some (some (l, ts, rest))

/-- The post-break drain loops (main.rs 350-368): starting from the
current candidate, `get_line` succeeds on every remaining line (all are
`Ok`), so the candidate and then every following line is emitted raw. -/
def drainFrom (cand : Option String) (rest : List String) : List String :=
  match cand with
  | none => []
  | some l => l :: rest

/-- Drain a source whose candidate is its first line. -/
def drainAll (l : List String) : List String :=
  drainFrom l.head? l.tail

/-- The main interleaving loop from the state where both sources hold a
parsed pending candidate: syslog candidate `sl` (timestamp `st`, rest
`sr`) and stdin candidate `il` (timestamp `it`, rest `ir`).  The branch
`syslog_date < stdin_date` (main.rs 341) emits the syslog candidate;
otherwise - including ties - the stdin candidate is emitted.  After an
emission the emitted side is re-pulled; an ended side breaks the loop and
the other side is drained raw from its pending candidate.
Each loop iteration consumes one line from one of the two sources, so
the loop runs fewer than `sr.length + ir.length + 1` further iterations;
the recursion is bounded by that `fuel` (the fuel-out branch is
unreachable at the fuel `merge_logs` supplies, see
`mergeMain_fuel_irrelevant`). -/
def mergeMain : Nat → String → Ts → List String → String → Ts → List String →
    Option (List String)
  | 0, _, _, _, _, _, _ => none
  | fuel + 1, sl, st, sr, il, it, ir =>
    if st.instantMicros < it.instantMicros then
      match sr with
      | [] => some (sl :: drainFrom (some il) ir)
      | l :: rest =>
        match get_line_split (some (.ok l)) with
        | .panic => none
        | .err => some (sl :: drainFrom (some il) ir)
        | .ok ts _ => (mergeMain fuel l ts rest il it ir).map (fun out => sl :: out)
    else
      match ir with
      | [] => some (il :: drainFrom (some sl) sr)
      | l :: rest =>
        match get_line_split (some (.ok l)) with
        | .panic => none
        | .err => some (il :: drainFrom (some sl) sr)
        | .ok ts _ => (mergeMain fuel sl st sr l ts rest).map (fun out => il :: out)

/-- `merge_logs` on the two captured logs.  The first loop iteration
pulls the stdin side first, then the syslog side, and only then checks
the end flags; `end_stdin` drains the syslog file raw (even when both
sides ended at once), otherwise `end_syslog` drains the stdin file raw
(main.rs 309-368). -/
def merge_logs (syslogLines stdinLines : List String) : Option (List String) :=
  match fetchParse stdinLines with
  | none => none
  | some none =>
    match fetchParse syslogLines with
    | none => none
    | some _ => some (drainAll syslogLines)
  | some (some (il, it, ir)) =>
    match fetchParse syslogLines with
    | none => none
    | some none => some (drainAll stdinLines)
    | some (some (sl, st, sr)) => mergeMain (sr.length + ir.length + 1) sl st sr il it ir

/-! ## Session controller (`main`, main.rs 412-424)

`main` chains `collect_logs`, `merge_logs`, `remove_tmp_files` and
`notify_result` with `?`.  The outcome of each fallible step is a
parameter; the model returns how many temporary-file deletions were
attempted together with the overall result.  `remove_tmp_files`
(main.rs 373-377) itself chains the two `fs::remove_file` calls with `?`,
so a failing first deletion skips the second. -/

/-- `remove_tmp_files`: number of deletions attempted, and its result. -/
def remove_tmp_files (r1 r2 : Except String Unit) : Nat × Except String Unit :=
  match r1 with
  | .error e => (1, .error e)
  | .ok _ =>
    match r2 with
    | .error e => (2, .error e)
    | .ok _ => (2, .ok ())

/-- `main`'s sequencing: a failing `collect_logs` or `merge_logs`
propagates immediately via `?`, before `remove_tmp_files` runs. -/
def mainFlow (collectRes mergeRes r1 r2 : Except String Unit) : Nat × Except String Unit :=
  match collectRes with
  | .error e => (0, .error e)
  | .ok _ =>
    match mergeRes with
    | .error e => (0, .error e)
    | .ok _ => remove_tmp_files r1 r2

/-! ## Basic lemmas about the embedded definitions -/

theorem drainAll_eq (l : List String) : drainAll l = l := by
  cases l <;> rfl

/-- One-step unfolding of `mergeMain` (stated by hand; the automatic
equation generator does not handle the two-sided branch structure). -/
theorem mergeMain_succ (fuel : Nat) (sl : String) (st : Ts) (sr : List String)
    (il : String) (it : Ts) (ir : List String) :
    mergeMain (fuel + 1) sl st sr il it ir =
      if st.instantMicros < it.instantMicros then
        match sr with
        | [] => some (sl :: drainFrom (some il) ir)
        | l :: rest =>
          match get_line_split (some (.ok l)) with
          | .panic => none
          | .err => some (sl :: drainFrom (some il) ir)
          | .ok ts _ => (mergeMain fuel l ts rest il it ir).map (fun out => sl :: out)
      else
        match ir with
        | [] => some (il :: drainFrom (some sl) sr)
        | l :: rest =>
          match get_line_split (some (.ok l)) with
          | .panic => none
          | .err => some (il :: drainFrom (some sl) sr)
          | .ok ts _ => (mergeMain fuel sl st sr l ts rest).map (fun out => il :: out) := rfl

/-! Branch-level corollaries of `mergeMain_succ`, the working equations
for all merge proofs below. -/

theorem mergeMain_lt_nil {st it : Ts} (fuel : Nat) (sl il : String) (ir : List String)
    (h : st.instantMicros < it.instantMicros) :
    mergeMain (fuel + 1) sl st [] il it ir = some (sl :: il :: ir) := by
  rw [mergeMain_succ, if_pos h]; rfl

theorem mergeMain_lt_panic {st it : Ts} {l : String} (fuel : Nat) (sl il : String)
    (rest ir : List String) (h : st.instantMicros < it.instantMicros)
    (hls : get_line_split (some (.ok l)) = .panic) :
    mergeMain (fuel + 1) sl st (l :: rest) il it ir = none := by
  rw [mergeMain_succ, if_pos h]; simp only [hls]

theorem mergeMain_lt_err {st it : Ts} {l : String} (fuel : Nat) (sl il : String)
    (rest ir : List String) (h : st.instantMicros < it.instantMicros)
    (hls : get_line_split (some (.ok l)) = .err) :
    mergeMain (fuel + 1) sl st (l :: rest) il it ir = some (sl :: il :: ir) := by
  rw [mergeMain_succ, if_pos h]; simp only [hls]; rfl

theorem mergeMain_lt_ok {st it ts : Ts} {l : String} {msg : String} (fuel : Nat)
    (sl il : String) (rest ir : List String) (h : st.instantMicros < it.instantMicros)
    (hls : get_line_split (some (.ok l)) = .ok ts msg) :
    mergeMain (fuel + 1) sl st (l :: rest) il it ir =
      (mergeMain fuel l ts rest il it ir).map (fun out => sl :: out) := by
  rw [mergeMain_succ, if_pos h]; simp only [hls]

theorem mergeMain_ge_nil {st it : Ts} (fuel : Nat) (sl il : String) (sr : List String)
    (h : ¬st.instantMicros < it.instantMicros) :
    mergeMain (fuel + 1) sl st sr il it [] = some (il :: sl :: sr) := by
  rw [mergeMain_succ, if_neg h]; rfl

theorem mergeMain_ge_panic {st it : Ts} {l : String} (fuel : Nat) (sl il : String)
    (sr rest : List String) (h : ¬st.instantMicros < it.instantMicros)
    (hls : get_line_split (some (.ok l)) = .panic) :
    mergeMain (fuel + 1) sl st sr il it (l :: rest) = none := by
  rw [mergeMain_succ, if_neg h]; simp only [hls]

theorem mergeMain_ge_err {st it : Ts} {l : String} (fuel : Nat) (sl il : String)
    (sr rest : List String) (h : ¬st.instantMicros < it.instantMicros)
    (hls : get_line_split (some (.ok l)) = .err) :
    mergeMain (fuel + 1) sl st sr il it (l :: rest) = some (il :: sl :: sr) := by
  rw [mergeMain_succ, if_neg h]; simp only [hls]; rfl

theorem mergeMain_ge_ok {st it ts : Ts} {l : String} {msg : String} (fuel : Nat)
    (sl il : String) (sr rest : List String) (h : ¬st.instantMicros < it.instantMicros)
    (hls : get_line_split (some (.ok l)) = .ok ts msg) :
    mergeMain (fuel + 1) sl st sr il it (l :: rest) =
      (mergeMain fuel sl st sr l ts rest).map (fun out => il :: out) := by
  rw [mergeMain_succ, if_neg h]; simp only [hls]

/-- The `fuel` parameter of `mergeMain` is irrelevant as soon as it
exceeds the number of remaining lines: the loop really terminates, so the
fuel-out branch of the model is unreachable in `merge_logs`. -/
theorem mergeMain_fuel_irrelevant :
    ∀ (n m : Nat) (sl : String) (st : Ts) (sr : List String)
      (il : String) (it : Ts) (ir : List String),
      sr.length + ir.length < n → sr.length + ir.length < m →
      mergeMain n sl st sr il it ir = mergeMain m sl st sr il it ir := by
  intro n
  induction n with
  | zero => intro m sl st sr il it ir hn; omega
  | succ n ih =>
    intro m sl st sr il it ir hn hm
    match m with
    | 0 => omega
    | m + 1 =>
      rcases Decidable.em (st.instantMicros < it.instantMicros) with h | h
      · cases sr with
        | nil => rw [mergeMain_lt_nil n sl il ir h, mergeMain_lt_nil m sl il ir h]
        | cons l rest =>
          simp only [List.length_cons] at hn hm
          cases hls : get_line_split (some (.ok l)) with
          | panic =>
            rw [mergeMain_lt_panic n sl il rest ir h hls,
              mergeMain_lt_panic m sl il rest ir h hls]
          | err =>
            rw [mergeMain_lt_err n sl il rest ir h hls,
              mergeMain_lt_err m sl il rest ir h hls]
          | ok ts msg =>
            rw [mergeMain_lt_ok n sl il rest ir h hls,
              mergeMain_lt_ok m sl il rest ir h hls,
              ih m l ts rest il it ir (by omega) (by omega)]
      · cases ir with
        | nil => rw [mergeMain_ge_nil n sl il sr h, mergeMain_ge_nil m sl il sr h]
        | cons l rest =>
          simp only [List.length_cons] at hn hm
          cases hls : get_line_split (some (.ok l)) with
          | panic =>
            rw [mergeMain_ge_panic n sl il sr rest h hls,
              mergeMain_ge_panic m sl il sr rest h hls]
          | err =>
            rw [mergeMain_ge_err n sl il sr rest h hls,
              mergeMain_ge_err m sl il sr rest h hls]
          | ok ts msg =>
            rw [mergeMain_ge_ok n sl il sr rest h hls,
              mergeMain_ge_ok m sl il sr rest h hls,
              ih m sl st sr l ts rest (by omega) (by omega)]

/-! ## Log predicates -/

/-- Every line of the log parses to a timestamped record. -/
def validB (l : List String) : Bool :=
  l.all fun x => (lineTs x).isSome

/-- Comparison of two lines by parsed timestamp; vacuously true when
either line does not parse. -/
def lineLeB (a b : String) : Bool :=
  match lineTs a, lineTs b with
  | some x, some y => decide (x.instantMicros ≤ y.instantMicros)
  | _, _ => true

/-- Strict timestamp comparison of two lines; false when either line
does not parse. -/
def lineLtB (a b : String) : Bool :=
  match lineTs a, lineTs b with
  | some x, some y => decide (x.instantMicros < y.instantMicros)
  | _, _ => false

/-- The log's lines are in non-decreasing timestamp order. -/
def chainB : List String → Bool
  | [] => true
  | [_] => true
  | a :: b :: rest => lineLeB a b && chainB (b :: rest)

theorem validB_cons {l : String} {rest : List String} :
    validB (l :: rest) = true ↔ (lineTs l).isSome = true ∧ validB rest = true := by
  simp [validB]

theorem chainB_cons_cons {a b : String} {rest : List String} :
    chainB (a :: b :: rest) = true ↔ lineLeB a b = true ∧ chainB (b :: rest) = true := by
  simp [chainB]

theorem chainB_cons_of_head {a : String} {l : List String}
    (hl : chainB l = true) (hh : ∀ b, l.head? = some b → lineLeB a b = true) :
    chainB (a :: l) = true := by
  cases l with
  | nil => rfl
  | cons b rest => exact chainB_cons_cons.mpr ⟨hh b rfl, hl⟩

theorem chainB_tail {a : String} {l : List String} (h : chainB (a :: l) = true) :
    chainB l = true := by
  cases l with
  | nil => rfl
  | cons b rest => exact (chainB_cons_cons.mp h).2

theorem lineTs_eq_of_ok {l : String} {ts : Ts} {msg : String}
    (h : get_line_split (some (.ok l)) = .ok ts msg) : lineTs l = some ts := by
  unfold lineTs
  rw [h]

theorem lineTs_isSome_iff {l : String} :
    (lineTs l).isSome = true ↔ ∃ ts msg, get_line_split (some (.ok l)) = .ok ts msg := by
  unfold lineTs
  cases h : get_line_split (some (.ok l)) with
  | panic => simp
  | err => simp
  | ok ts msg => simp

theorem fetchParse_nil : fetchParse [] = some none := rfl

theorem fetchParse_cons_ok {l : String} {ts : Ts} {msg : String} (rest : List String)
    (h : get_line_split (some (.ok l)) = .ok ts msg) :
    fetchParse (l :: rest) = some (some (l, ts, rest)) := by
  simp only [fetchParse]
  rw [h]

theorem fetchParse_cons_err {l : String} (rest : List String)
    (h : get_line_split (some (.ok l)) = .err) :
    fetchParse (l :: rest) = some none := by
  simp only [fetchParse]
  rw [h]

/-- A valid log's fetch never panics and ends only on the empty log. -/
theorem fetchParse_of_validB {l : List String} (h : validB l = true) :
    l = [] ∨ ∃ x ts rest, l = x :: rest ∧ lineTs x = some ts ∧
      fetchParse l = some (some (x, ts, rest)) := by
  cases l with
  | nil => exact Or.inl rfl
  | cons x rest =>
    right
    obtain ⟨hx, _⟩ := validB_cons.mp h
    obtain ⟨ts, msg, hts⟩ := lineTs_isSome_iff.mp hx
    exact ⟨x, ts, rest, rfl, lineTs_eq_of_ok hts, fetchParse_cons_ok rest hts⟩

theorem lineLeB_of_ts {a b : String} {x y : Ts} (ha : lineTs a = some x)
    (hb : lineTs b = some y) (h : x.instantMicros ≤ y.instantMicros) :
    lineLeB a b = true := by
  unfold lineLeB
  rw [ha, hb]
  simpa using h

/-- Core correctness of the interleaving loop on two valid, individually
chronological sources: the loop succeeds, emits a permutation of all
lines, preserves each source as a subsequence (hence in file order),
keeps the output chronological, and starts with one of the two pending
candidates. -/
theorem mergeMain_valid_sorted :
    ∀ (n : Nat) (sl : String) (st : Ts) (sr : List String)
      (il : String) (it : Ts) (ir : List String),
      sr.length + ir.length < n →
      lineTs sl = some st → lineTs il = some it →
      validB sr = true → validB ir = true →
      chainB (sl :: sr) = true → chainB (il :: ir) = true →
      ∃ out, mergeMain n sl st sr il it ir = some out ∧
        out.Perm ((sl :: sr) ++ il :: ir) ∧
        (sl :: sr).Sublist out ∧ (il :: ir).Sublist out ∧
        chainB out = true ∧
        (out.head? = some sl ∨ out.head? = some il) := by
  intro n
  induction n with
  | zero => intro sl st sr il it ir hn; omega
  | succ n ih =>
    intro sl st sr il it ir hn hsl hil hVS hVI hCS hCI
    rcases Decidable.em (st.instantMicros < it.instantMicros) with h | h
    · cases sr with
      | nil =>
        refine ⟨sl :: il :: ir, mergeMain_lt_nil n sl il ir h, ?_, ?_, ?_, ?_, Or.inl rfl⟩
        · rfl
        · exact (List.nil_sublist _).cons₂ sl
        · exact (il :: ir).sublist_cons_self sl
        · exact chainB_cons_of_head hCI fun b hb => by
            rw [List.head?_cons, Option.some.injEq] at hb
            exact hb ▸ lineLeB_of_ts hsl hil (le_of_lt h)
      | cons l rest =>
        obtain ⟨hl, hVrest⟩ := validB_cons.mp hVS
        obtain ⟨ts, msg, hts⟩ := lineTs_isSome_iff.mp hl
        have hlts : lineTs l = some ts := lineTs_eq_of_ok hts
        simp only [List.length_cons] at hn
        obtain ⟨out, hout, hperm, hsubS, hsubI, hchain, hhead⟩ :=
          ih l ts rest il it ir (by omega) hlts hil hVrest hVI (chainB_tail hCS) hCI
        refine ⟨sl :: out, ?_, ?_, ?_, ?_, ?_, Or.inl rfl⟩
        · rw [mergeMain_lt_ok n sl il rest ir h hts, hout]; rfl
        · exact (hperm.cons sl).trans (List.Perm.refl _)
        · exact hsubS.cons₂ sl
        · exact hsubI.cons sl
        · refine chainB_cons_of_head hchain fun b hb => ?_
          rcases hhead with h1 | h1 <;> rw [h1, Option.some.injEq] at hb <;> subst hb
          · exact (chainB_cons_cons.mp hCS).1
          · exact lineLeB_of_ts hsl hil (le_of_lt h)
    · cases ir with
      | nil =>
        refine ⟨il :: sl :: sr, mergeMain_ge_nil n sl il sr h, ?_, ?_, ?_, ?_, Or.inr rfl⟩
        · exact (List.perm_append_singleton il (sl :: sr)).symm
        · exact (sl :: sr).sublist_cons_self il
        · exact (List.nil_sublist _).cons₂ il
        · exact chainB_cons_of_head hCS fun b hb => by
            rw [List.head?_cons, Option.some.injEq] at hb
            exact hb ▸ lineLeB_of_ts hil hsl (le_of_not_lt h)
      | cons l rest =>
        obtain ⟨hl, hVrest⟩ := validB_cons.mp hVI
        obtain ⟨ts, msg, hts⟩ := lineTs_isSome_iff.mp hl
        have hlts : lineTs l = some ts := lineTs_eq_of_ok hts
        simp only [List.length_cons] at hn
        obtain ⟨out, hout, hperm, hsubS, hsubI, hchain, hhead⟩ :=
          ih sl st sr l ts rest (by omega) hsl hlts hVS hVrest hCS (chainB_tail hCI)
        refine ⟨il :: out, ?_, ?_, ?_, ?_, ?_, Or.inr rfl⟩
        · rw [mergeMain_ge_ok n sl il sr rest h hts, hout]; rfl
        · exact (hperm.cons il).trans List.perm_middle.symm
        · exact hsubS.cons il
        · exact hsubI.cons₂ il
        · refine chainB_cons_of_head hchain fun b hb => ?_
          rcases hhead with h1 | h1 <;> rw [h1, Option.some.injEq] at hb <;> subst hb
          · exact lineLeB_of_ts hil hsl (le_of_not_lt h)
          · exact (chainB_cons_cons.mp hCI).1

/-- `merge_logs` on two valid, individually chronological logs: succeeds,
output is a permutation of all input lines (no loss, no duplication),
each input is a subsequence of the output (per-source order preserved),
and the output is chronological. -/
theorem merge_logs_valid_sorted (A B : List String)
    (hVA : validB A = true) (hVB : validB B = true)
    (hCA : chainB A = true) (hCB : chainB B = true) :
    ∃ out, merge_logs A B = some out ∧ out.Perm (A ++ B) ∧
      A.Sublist out ∧ B.Sublist out ∧ chainB out = true := by
  rcases fetchParse_of_validB hVB with hB | ⟨b, tb, B', rfl, hbts, hBf⟩
  · subst hB
    rcases fetchParse_of_validB hVA with hA | ⟨a, ta, A', rfl, hats, hAf⟩
    · subst hA
      exact ⟨[], rfl, List.Perm.refl _, List.Sublist.refl _, List.Sublist.refl _, rfl⟩
    · refine ⟨a :: A', ?_, by simp, List.Sublist.refl _, List.nil_sublist _, hCA⟩
      simp only [merge_logs, fetchParse_nil, hAf, drainAll_eq]
  · cases A with
    | nil =>
      refine ⟨b :: B', ?_, by simp, List.nil_sublist _, List.Sublist.refl _, hCB⟩
      simp only [merge_logs, fetchParse_nil, hBf, drainAll_eq]
    | cons a A' =>
      obtain ⟨ha, hVA'⟩ := validB_cons.mp hVA
      obtain ⟨ta, amsg, hagls⟩ := lineTs_isSome_iff.mp ha
      have hats : lineTs a = some ta := lineTs_eq_of_ok hagls
      have hAf : fetchParse (a :: A') = some (some (a, ta, A')) :=
        fetchParse_cons_ok A' hagls
      obtain ⟨out, hout, hperm, hsubA, hsubB, hchain, -⟩ :=
        mergeMain_valid_sorted (A'.length + B'.length + 1) a ta A' b tb B'
          (by omega) hats hbts hVA' (validB_cons.mp hVB).2 hCA hCB
      refine ⟨out, ?_, hperm, hsubA, hsubB, hchain⟩
      simp only [merge_logs, hBf, hAf]
      exact hout

theorem lineLtB_lt {a b : String} {x y : Ts} (ha : lineTs a = some x)
    (hb : lineTs b = some y) (h : lineLtB a b = true) :
    x.instantMicros < y.instantMicros := by
  unfold lineLtB at h
  rw [ha, hb] at h
  simpa using h

theorem lineErrB_gls {l : String} (h : lineErrB l = true) :
    get_line_split (some (.ok l)) = .err := by
  unfold lineErrB at h
  cases hls : get_line_split (some (.ok l)) <;> rw [hls] at h <;> simp_all

/-- The interleaving loop when the syslog side is a valid prefix `gs`
followed by a line `bad` whose timestamp fails to parse, and the stdin
side holds a line `bstar` strictly later than the whole syslog prefix
(so the syslog side hits `bad` while stdin still has a pending
candidate): the syslog side is treated as exhausted at `bad`, its prefix
participates, its tail from `bad` on is dropped, and the stdin side is
drained in file order. -/
theorem mergeMain_exhaust_syslog :
    ∀ (n : Nat) (sl : String) (st : Ts) (gs : List String) (bad : String)
      (tA : List String) (il : String) (it : Ts) (ir : List String) (bstar : String),
      gs.length + ir.length < n →
      lineTs sl = some st → lineTs il = some it →
      validB gs = true → validB ir = true →
      lineErrB bad = true →
      bstar ∈ il :: ir →
      (∀ a ∈ sl :: gs, lineLtB a bstar = true) →
      ∃ out, mergeMain n sl st (gs ++ bad :: tA) il it ir = some out ∧
        out.Perm ((sl :: gs) ++ il :: ir) ∧
        (sl :: gs).Sublist out ∧ (il :: ir).Sublist out := by
  intro n
  induction n with
  | zero => intro sl st gs bad tA il it ir bstar hn; omega
  | succ n ih =>
    intro sl st gs bad tA il it ir bstar hn hsl hil hVG hVI hbad hmem hbeats
    rcases Decidable.em (st.instantMicros < it.instantMicros) with h | h
    · cases gs with
      | nil =>
        refine ⟨sl :: il :: ir,
          mergeMain_lt_err n sl il tA ir h (lineErrB_gls hbad), List.Perm.refl _, ?_, ?_⟩
        · exact (List.nil_sublist _).cons₂ sl
        · exact (il :: ir).sublist_cons_self sl
      | cons g gs' =>
        obtain ⟨hg, hVG'⟩ := validB_cons.mp hVG
        obtain ⟨tg, gmsg, hggls⟩ := lineTs_isSome_iff.mp hg
        have hgts : lineTs g = some tg := lineTs_eq_of_ok hggls
        simp only [List.length_cons] at hn
        obtain ⟨out, hout, hperm, hsubS, hsubI⟩ :=
          ih g tg gs' bad tA il it ir bstar (by omega) hgts hil hVG' hVI hbad hmem
            (fun a haMem => hbeats a (List.mem_cons_of_mem sl haMem))
        refine ⟨sl :: out, ?_, hperm.cons sl, hsubS.cons₂ sl, hsubI.cons sl⟩
        rw [List.cons_append, mergeMain_lt_ok n sl il (gs' ++ bad :: tA) ir h hggls, hout]
        rfl
    · have hltil : lineLtB sl bstar = true := hbeats sl (List.mem_cons_self sl _)
      cases ir with
      | nil =>
        rw [List.mem_singleton] at hmem
        subst hmem
        exact absurd (lineLtB_lt hsl hil hltil) h
      | cons i2 ir' =>
        have hmem' : bstar ∈ i2 :: ir' := by
          rcases List.mem_cons.mp hmem with rfl | hm
          · exact absurd (lineLtB_lt hsl hil hltil) h
          · exact hm
        obtain ⟨hi, hVI'⟩ := validB_cons.mp hVI
        obtain ⟨ti, imsg, higls⟩ := lineTs_isSome_iff.mp hi
        have hits : lineTs i2 = some ti := lineTs_eq_of_ok higls
        simp only [List.length_cons] at hn
        obtain ⟨out, hout, hperm, hsubS, hsubI⟩ :=
          ih sl st gs bad tA i2 ti ir' bstar (by omega) hsl hits hVG hVI' hbad hmem' hbeats
        refine ⟨il :: out, ?_, (hperm.cons il).trans List.perm_middle.symm,
          hsubS.cons il, hsubI.cons₂ il⟩
        rw [mergeMain_ge_ok n sl il (gs ++ bad :: tA) ir' h higls, hout]
        rfl

/-- `merge_logs` when the syslog file is a valid chronological prefix
`gA` followed by a line failing to parse, and the stdin file is valid
and contains a line later than all of `gA` (so the syslog side exhausts
first): the output is exactly `gA` interleaved with `B` (the bad line
and everything after it is dropped), with per-source order preserved. -/
theorem merge_logs_syslog_parse_failure (gA : List String) (bad : String)
    (tA B : List String) (bstar : String)
    (hVG : validB gA = true) (hVB : validB B = true)
    (hbad : lineErrB bad = true) (hmem : bstar ∈ B)
    (hbeats : ∀ a ∈ gA, lineLtB a bstar = true) :
    ∃ out, merge_logs (gA ++ bad :: tA) B = some out ∧ out.Perm (gA ++ B) ∧
      gA.Sublist out ∧ B.Sublist out := by
  cases B with
  | nil => exact absurd hmem (List.not_mem_nil bstar)
  | cons b B' =>
    obtain ⟨hb, hVB'⟩ := validB_cons.mp hVB
    obtain ⟨tb, bmsg, hbgls⟩ := lineTs_isSome_iff.mp hb
    have hbts : lineTs b = some tb := lineTs_eq_of_ok hbgls
    have hBf : fetchParse (b :: B') = some (some (b, tb, B')) :=
      fetchParse_cons_ok B' hbgls
    cases gA with
    | nil =>
      have hAf : fetchParse (bad :: tA) = some none :=
        fetchParse_cons_err tA (lineErrB_gls hbad)
      refine ⟨b :: B', ?_, by simp, List.nil_sublist _, List.Sublist.refl _⟩
      simp only [List.nil_append, merge_logs, hBf, hAf, drainAll_eq]
    | cons a gA' =>
      obtain ⟨ha, hVG'⟩ := validB_cons.mp hVG
      obtain ⟨ta, amsg, hagls⟩ := lineTs_isSome_iff.mp ha
      have hats : lineTs a = some ta := lineTs_eq_of_ok hagls
      have hAf : fetchParse ((a :: gA') ++ bad :: tA)
          = some (some (a, ta, gA' ++ bad :: tA)) :=
        fetchParse_cons_ok (gA' ++ bad :: tA) hagls
      obtain ⟨out, hout, hperm, hsubS, hsubI⟩ :=
        mergeMain_exhaust_syslog ((gA' ++ bad :: tA).length + B'.length + 1)
          a ta gA' bad tA b tb B' bstar
          (by simp only [List.length_append, List.length_cons]; omega)
          hats hbts hVG' hVB' hbad hmem
          (fun x hx => hbeats x hx)
      refine ⟨out, ?_, hperm, hsubS, hsubI⟩
      simp only [merge_logs, hBf, hAf]
      exact hout

/-- Merging a valid syslog file against an empty stdin file returns the
syslog file verbatim (`end_stdin` on the first iteration drains the whole
syslog file raw). -/
theorem merge_logs_empty_stdin (A : List String) (hVA : validB A = true) :
    merge_logs A [] = some A := by
  rcases fetchParse_of_validB hVA with hA | ⟨a, ta, A', rfl, -, hAf⟩
  · subst hA; rfl
  · simp only [merge_logs, fetchParse_nil, hAf, drainAll_eq]

/-- A stdin file whose first line fails to parse contributes nothing:
the merge output is exactly the syslog file, drained verbatim (provided
the syslog side does not panic on its own first line). -/
theorem merge_logs_bad_first_stdin (A : List String) (bad : String) (tB : List String)
    (hbad : lineErrB bad = true) (hnp : fetchParse A ≠ none) :
    merge_logs A (bad :: tB) = some A := by
  have hBf : fetchParse (bad :: tB) = some none :=
    fetchParse_cons_err tB (lineErrB_gls hbad)
  cases hA : fetchParse A with
  | none => exact absurd hA hnp
  | some x => simp only [merge_logs, hBf, hA, drainAll_eq]

/-- A syslog file whose first line fails to parse contributes nothing
when the stdin file's first line parses: the output is exactly the stdin
file. -/
theorem merge_logs_bad_first_syslog (bad : String) (tA : List String)
    (b : String) (tB : List String) (hbad : lineErrB bad = true)
    (hb : (lineTs b).isSome = true) :
    merge_logs (bad :: tA) (b :: tB) = some (b :: tB) := by
  obtain ⟨tb, msg, hbgls⟩ := lineTs_isSome_iff.mp hb
  have hBf : fetchParse (b :: tB) = some (some (b, tb, tB)) :=
    fetchParse_cons_ok tB hbgls
  have hAf : fetchParse (bad :: tA) = some none :=
    fetchParse_cons_err tA (lineErrB_gls hbad)
  simp only [merge_logs, hBf, hAf, drainAll_eq]

/-- The asymmetric corner: when the stdin file is empty, a syslog file
whose first line fails to parse is still drained verbatim - including the
malformed line - because `end_stdin` takes priority and drains the syslog
side raw. -/
theorem merge_logs_bad_first_syslog_empty_stdin (bad : String) (tA : List String)
    (hbad : lineErrB bad = true) :
    merge_logs (bad :: tA) [] = some (bad :: tA) := by
  have hAf : fetchParse (bad :: tA) = some none :=
    fetchParse_cons_err tA (lineErrB_gls hbad)
  simp only [merge_logs, fetchParse_nil, hAf, drainAll_eq]

/-- When the two pending candidates carry the same instant, the loop
emits the stdin (source B) candidate first: the branch
`syslog_date < stdin_date` is false on a tie. -/
theorem mergeMain_tie_stdin_first (fuel : Nat) (sl : String) (st : Ts)
    (sr : List String) (il : String) (it : Ts) (ir out : List String)
    (heq : st.instantMicros = it.instantMicros)
    (hrun : mergeMain (fuel + 1) sl st sr il it ir = some out) :
    out.head? = some il := by
  have h : ¬st.instantMicros < it.instantMicros := by omega
  cases ir with
  | nil =>
    rw [mergeMain_ge_nil fuel sl il sr h, Option.some.injEq] at hrun
    rw [← hrun]
    rfl
  | cons l rest =>
    cases hls : get_line_split (some (.ok l)) with
    | panic =>
      rw [mergeMain_ge_panic fuel sl il sr rest h hls] at hrun
      exact absurd hrun (by simp)
    | err =>
      rw [mergeMain_ge_err fuel sl il sr rest h hls, Option.some.injEq] at hrun
      rw [← hrun]
      rfl
    | ok ts msg =>
      rw [mergeMain_ge_ok fuel sl il sr rest h hls, Option.map_eq_some'] at hrun
      obtain ⟨a, -, ha⟩ := hrun
      rw [← ha]
      rfl

/-! ## Separator normalisation (Timestamp Normalizer) -/

/-- Two character lists agree except that characters at corresponding
positions may differ between `,` and `.` (the two decimal-separator
conventions). -/
def sepEquivB : List Char → List Char → Bool
  | [], [] => true
  | a :: as, b :: bs =>
    (a = b || ((a = ',' || a = '.') && (b = ',' || b = '.'))) && sepEquivB as bs
  | _, _ => false

theorem replaceCommaDotC_sepEquiv :
    ∀ {s1 s2 : List Char}, sepEquivB s1 s2 = true →
      replaceCommaDotC s1 = replaceCommaDotC s2 := by
  intro s1
  induction s1 with
  | nil => intro s2 h; cases s2 with
    | nil => rfl
    | cons b bs => simp [sepEquivB] at h
  | cons a as ih =>
    intro s2 h
    cases s2 with
    | nil => simp [sepEquivB] at h
    | cons b bs =>
      simp only [sepEquivB, Bool.and_eq_true] at h
      obtain ⟨hab, hrest⟩ := h
      simp only [replaceCommaDotC, List.map_cons, List.cons.injEq]
      refine ⟨?_, ih hrest⟩
      rcases Bool.or_eq_true_iff.mp hab with hEq | hSep
      · rw [decide_eq_true_iff.mp hEq]
      · obtain ⟨ha, hb⟩ := Bool.and_eq_true_iff.mp hSep
        rcases Bool.or_eq_true_iff.mp ha with h1 | h1 <;>
          rcases Bool.or_eq_true_iff.mp hb with h2 | h2 <;>
          rw [decide_eq_true_iff.mp h1, decide_eq_true_iff.mp h2] <;> simp

/-! ## Re-serialisation properties (capture output format) -/

theorem string_data_append (s t : String) : (s ++ t).data = s.data ++ t.data := by
  cases s; cases t; rfl

theorem digitChar_not_ws (n : Nat) : isWs (digitChar n) = false := by
  unfold digitChar
  split <;> rfl

theorem digitChar_ne_comma (n : Nat) : digitChar n ≠ ',' := by
  unfold digitChar
  split <;> decide

/-- Every character the fixed time format emits is a digit or one of
`-`, `T`, `:`, `.`, `+`: never whitespace and never a comma. -/
theorem formatTsC_chars (t : Ts) :
    ∀ c ∈ formatTsC t, isWs c = false ∧ c ≠ ',' := by
  intro c hc
  simp only [formatTsC, pad4c, pad2c, pad6c, List.mem_append, List.mem_cons,
    List.not_mem_nil, or_false] at hc
  casesm* _ ∨ _
  all_goals subst_vars
  all_goals first
    | exact ⟨digitChar_not_ws _, digitChar_ne_comma _⟩
    | exact ⟨rfl, by decide⟩
    | (split <;> exact ⟨rfl, by decide⟩)

/-- No two adjacent characters are both whitespace. -/
def noAdjWsB : List Char → Bool
  | a :: b :: rest => (!(isWs a && isWs b)) && noAdjWsB (b :: rest)
  | _ => true

theorem noAdjWsB_append_left {l1 l2 : List Char}
    (h1 : ∀ c ∈ l1, isWs c = false) :
    noAdjWsB (l1 ++ l2) = noAdjWsB l2 := by
  induction l1 with
  | nil => rfl
  | cons a l1' ih =>
    have ha : isWs a = false := h1 a (List.mem_cons_self a l1')
    have h1' : ∀ c ∈ l1', isWs c = false := fun c hc => h1 c (List.mem_cons_of_mem a hc)
    cases l1' with
    | nil =>
      cases l2 with
      | nil => rfl
      | cons b l2' => simp [noAdjWsB, ha]
    | cons b l1'' =>
      have := ih h1'
      simp only [List.cons_append] at this ⊢
      rw [show noAdjWsB (a :: b :: (l1'' ++ l2))
          = ((!(isWs a && isWs b)) && noAdjWsB (b :: (l1'' ++ l2))) from rfl,
        ha, this]
      simp

/-- Tokens produced by `splitWsAux` under a whitespace-free accumulator
are nonempty and whitespace-free. -/
theorem splitWsAux_tokens :
    ∀ (cs acc : List Char), (∀ c ∈ acc, isWs c = false) →
      ∀ tok ∈ splitWsAux cs acc, tok ≠ [] ∧ ∀ c ∈ tok, isWs c = false := by
  intro cs
  induction cs with
  | nil =>
    intro acc hacc tok htok
    unfold splitWsAux at htok
    split at htok
    · exact absurd htok (List.not_mem_nil tok)
    · rw [List.mem_singleton] at htok
      subst htok
      rename_i hne
      refine ⟨fun h => hne (by simpa using congrArg List.isEmpty h), ?_⟩
      intro c hc
      exact hacc c (List.mem_reverse.mp hc)
  | cons c cs' ih =>
    intro acc hacc tok htok
    unfold splitWsAux at htok
    split at htok
    · split at htok
      · exact ih [] (by simp) tok htok
      · rcases List.mem_cons.mp htok with rfl | hm
        · rename_i _ hne
          refine ⟨fun h => hne (by simpa using congrArg List.isEmpty h), ?_⟩
          intro x hx
          exact hacc x (List.mem_reverse.mp hx)
        · exact ih [] (by simp) tok hm
    · rename_i hws
      refine ih (c :: acc) ?_ tok htok
      intro x hx
      rcases List.mem_cons.mp hx with rfl | hm
      · exact Bool.of_not_eq_true hws
      · exact hacc x hm

theorem splitWsC_tokens (cs : List Char) :
    ∀ tok ∈ splitWsC cs, tok ≠ [] ∧ ∀ c ∈ tok, isWs c = false :=
  splitWsAux_tokens cs [] (by simp)

/-- Joining nonempty whitespace-free tokens with single spaces yields a
message with no two adjacent whitespace characters, whose first
character (when present) is not whitespace. -/
theorem joinSpaceC_noAdjWs :
    ∀ (toks : List (List Char)),
      (∀ tok ∈ toks, tok ≠ [] ∧ ∀ c ∈ tok, isWs c = false) →
      noAdjWsB (joinSpaceC toks) = true ∧
        (∀ c, (joinSpaceC toks).head? = some c → isWs c = false) := by
  intro toks
  induction toks with
  | nil => exact fun _ => ⟨rfl, by simp [joinSpaceC]⟩
  | cons t ts ih =>
    intro htoks
    obtain ⟨htne, htws⟩ := htoks t (List.mem_cons_self t ts)
    have hts : ∀ tok ∈ ts, tok ≠ [] ∧ ∀ c ∈ tok, isWs c = false :=
      fun tok hm => htoks tok (List.mem_cons_of_mem t hm)
    cases ts with
    | nil =>
      constructor
      · have h0 : ∀ l2 : List Char, noAdjWsB (t ++ l2) = noAdjWsB l2 :=
          fun l2 => noAdjWsB_append_left htws
        have := h0 []
        simpa [joinSpaceC] using this
      · intro c hc
        apply htws
        cases t with
        | nil => exact absurd rfl htne
        | cons x xs =>
          simp only [joinSpaceC, List.head?_cons, Option.some.injEq] at hc
          subst hc
          exact List.mem_cons_self x xs
    | cons t2 ts' =>
      obtain ⟨hrest, hresthead⟩ := ih hts
      have hjoin : joinSpaceC (t :: t2 :: ts') = t ++ ' ' :: joinSpaceC (t2 :: ts') := rfl
      constructor
      · rw [hjoin, noAdjWsB_append_left htws]
        cases hj : joinSpaceC (t2 :: ts') with
        | nil => rfl
        | cons r rrest =>
          have hr : isWs r = false := by
            apply hresthead
            rw [hj]
            rfl
          rw [show noAdjWsB (' ' :: r :: rrest)
              = ((!(isWs ' ' && isWs r)) && noAdjWsB (r :: rrest)) from rfl, hr]
          rw [hj] at hrest
          simpa using hrest
      · intro c hc
        rw [hjoin] at hc
        cases t with
        | nil => exact absurd rfl htne
        | cons x xs =>
          simp only [List.cons_append, List.head?_cons, Option.some.injEq] at hc
          subst hc
          exact htws x (List.mem_cons_self x xs)

/-- Structure of a successful `get_line_split`: the line splits into a
timestamp token and the remaining tokens, the token parses after comma
normalisation, and the message is the tokens re-joined with single
spaces. -/
theorem gls_ok_structure {line : String} {ts : Ts} {msg : String}
    (h : get_line_split (some (.ok line)) = .ok ts msg) :
    ∃ date rest, splitWsC line.data = date :: rest ∧
      chronoParse (replaceCommaDotC date) = some ts ∧
      msg = String.mk (joinSpaceC rest) := by
  unfold get_line_split at h
  split at h
  · exact absurd h (by simp)
  · exact absurd h (by simp)
  · rename_i v hv
    split at h
    · exact absurd h (by simp)
    · rename_i date rest hsp
      split at h
      · rename_i ts' hcp
        rw [LineRes.ok.injEq] at h
        rw [Option.some.injEq, Except.ok.injEq] at hv
        subst hv
        exact ⟨date, rest, hsp, by rw [hcp, h.1], h.2.symm⟩
      · exact absurd h (by simp)

/-! ## Claim theorems -/

/-- C9: the claim says the line-splitting/timestamp-parsing operation is
total and never panics, including on empty or whitespace-only lines.  The
code violates this: `split.next().unwrap()` panics when the line has no
token, so this theorem evaluates the code at the failing inputs.  (The
spec's own contract, section 4.1, requires a `ParseError` return for an
absent token, so the code, not the claim, is at fault.) -/
theorem claim_C9_empty_line_panics :
    get_line_split (some (Except.ok "")) = LineRes.panic ∧
    get_line_split (some (Except.ok " \t ")) = LineRes.panic := by
  constructor <;> rfl

/-- C5 counterexample: on a session-fatal capture error, `main`'s `?`
propagates before `remove_tmp_files` is ever reached, so zero
temporary-file deletions are attempted - contradicting the claim that a
failed run still attempts best-effort cleanup. -/
theorem claim_C5_counterexample :
    mainFlow (Except.error "journalctl: permission denied") (Except.ok ())
        (Except.ok ()) (Except.ok ()) =
      (0, Except.error "journalctl: permission denied") := rfl

/-- C5 (amended): temporary-file deletion is attempted exactly when both
capture and merge succeed; a fatal capture or merge error propagates
immediately and leaves the temporary files in place. -/
theorem claim_C5_cleanup_iff_success (c m r1 r2 : Except String Unit) :
    (mainFlow c m r1 r2).1 ≠ 0 ↔ (c = Except.ok () ∧ m = Except.ok ()) := by
  cases c with
  | error e => simp [mainFlow]
  | ok u =>
    cases u
    cases m with
    | error e => simp [mainFlow]
    | ok u =>
      cases u
      cases r1 with
      | error e => simp [mainFlow, remove_tmp_files]
      | ok u =>
        cases u
        cases r2 with
        | error e => simp [mainFlow, remove_tmp_files]
        | ok u => cases u; simp [mainFlow, remove_tmp_files]

/-- C7: the normalizer substitutes every `,` by `.` before parsing, so
two tokens that differ only in the decimal separator parse identically;
a malformed token yields the error value (`none`), never a panic; and
the parse is exactly `chronoParse` after comma normalisation. -/
theorem claim_C7_separator_normalisation :
    (∀ s1 s2 : String, sepEquivB s1.data s2.data = true →
      tokenParse s1 = tokenParse s2) ∧
    (∀ s : String, tokenParse s = chronoParse (replaceCommaDotC s.data)) ∧
    tokenParse "2021-09-17Tbroken" = none := by
  refine ⟨fun s1 s2 h => ?_, fun s => rfl, by decide⟩
  unfold tokenParse
  rw [replaceCommaDotC_sepEquiv h]

/-- C7 witness: the dmesg-style token (comma separator) and the same
token with a dot parse to the same instant. -/
theorem claim_C7_witness :
    sepEquivB ("2021-09-17T07:24:23,364133+00:00" : String).data
        ("2021-09-17T07:24:23.364133+00:00" : String).data = true ∧
    tokenParse "2021-09-17T07:24:23,364133+00:00" =
      tokenParse "2021-09-17T07:24:23.364133+00:00" :=
  ⟨by decide, claim_C7_separator_normalisation.1 _ _ (by decide)⟩

theorem collect_syslog_line_ok (full : Bool) (start : Ts) {line : String}
    {ts : Ts} {msg : String} (hgls : get_line_split (some (.ok line)) = .ok ts msg) :
    collect_syslog_line full start line =
      if full || decide (start.instantMicros ≤ ts.instantMicros) then
        SyslogDisposition.written (formatTs ts ++ " " ++ msg)
      else SyslogDisposition.filtered := by
  unfold collect_syslog_line
  rw [hgls]

theorem collect_syslog_line_err (full : Bool) (start : Ts) {line : String}
    (hgls : get_line_split (some (.ok line)) = .err) :
    collect_syslog_line full start line = SyslogDisposition.dropped := by
  unfold collect_syslog_line
  rw [hgls]

/-- C8: in the kernel-log capture loop, a successfully parsed record is
written iff `full` is set or its timestamp is at or after the session
start; a line whose timestamp fails to parse is dropped and never
echoed. -/
theorem claim_C8_filter_policy :
    ∀ (full console_off : Bool) (start : Ts) (line : String),
      (∀ ts msg, get_line_split (some (.ok line)) = .ok ts msg →
        ((∃ s, collect_syslog_line full start line = .written s) ↔
          (full = true ∨ start.instantMicros ≤ ts.instantMicros))) ∧
      (get_line_split (some (.ok line)) = .err →
        collect_syslog_line full start line = .dropped ∧
        collect_syslog_echoed full console_off start line = false) := by
  intro full c_off start line
  constructor
  · intro ts msg hgls
    rw [collect_syslog_line_ok full start hgls]
    by_cases hc : full = true ∨ start.instantMicros ≤ ts.instantMicros
    · have hb : (full || decide (start.instantMicros ≤ ts.instantMicros)) = true := by
        rcases hc with h | h
        · simp [h]
        · simp [h]
      rw [if_pos hb]
      exact iff_of_true ⟨_, rfl⟩ hc
    · have hfull : full = false := by
        cases full
        · rfl
        · exact absurd (Or.inl rfl) hc
      have hle : ¬start.instantMicros ≤ ts.instantMicros := fun h => hc (Or.inr h)
      have hb : (full || decide (start.instantMicros ≤ ts.instantMicros)) = false := by
        rw [hfull]
        simp [hle]
      rw [if_neg (by simp [hb])]
      refine iff_of_false ?_ hc
      rintro ⟨s, hs⟩
      exact SyslogDisposition.noConfusion hs
  · intro hgls
    refine ⟨collect_syslog_line_err full start hgls, ?_⟩
    unfold collect_syslog_echoed
    rw [collect_syslog_line_err full start hgls]

/-- C8 witness: with `full = false`, a record stamped after the session
start is written. -/
theorem claim_C8_witness :
    get_line_split (some (.ok "2024-01-01T00:00:05.000000+0000 boot ok")) =
      .ok ⟨2024, 1, 1, 0, 0, 5, 0, 0⟩ "boot ok" ∧
    (∃ s, collect_syslog_line false ⟨2024, 1, 1, 0, 0, 0, 0, 0⟩
        "2024-01-01T00:00:05.000000+0000 boot ok" = .written s) :=
  ⟨by decide,
    ((claim_C8_filter_policy false false ⟨2024, 1, 1, 0, 0, 0, 0, 0⟩
      "2024-01-01T00:00:05.000000+0000 boot ok").1 ⟨2024, 1, 1, 0, 0, 5, 0, 0⟩
      "boot ok" (by decide)).mpr (Or.inr (by decide))⟩

/-- C10: every record the kernel-log capture persists is re-serialised,
not written raw: the written line is the parsed timestamp re-formatted in
the fixed output format (which never contains a comma, so a `,` decimal
separator becomes `.`) followed by the remaining tokens of the original
line joined by single spaces - in particular no two adjacent whitespace
characters survive in the written line. -/
theorem claim_C10_reserialisation :
    ∀ (full : Bool) (start : Ts) (line : String) (ts : Ts) (msg : String),
      get_line_split (some (.ok line)) = .ok ts msg →
      (collect_syslog_line full start line =
          .written (formatTs ts ++ " " ++ msg) ∨
        collect_syslog_line full start line = .filtered) ∧
      msg.data = joinSpaceC ((splitWsC line.data).drop 1) ∧
      (∀ c ∈ (formatTs ts).data, c ≠ ',') ∧
      noAdjWsB ((formatTs ts ++ " " ++ msg).data) = true := by
  intro full start line ts msg hgls
  obtain ⟨date, rest, hsp, hcp, hmsg⟩ := gls_ok_structure hgls
  refine ⟨?_, ?_, ?_, ?_⟩
  · rw [collect_syslog_line_ok full start hgls]
    split
    · exact Or.inl rfl
    · exact Or.inr rfl
  · rw [hmsg, hsp]
    rfl
  · intro c hc
    exact (formatTsC_chars ts c hc).2
  · have hdata : (formatTs ts ++ " " ++ msg).data = formatTsC ts ++ ' ' :: msg.data := by
      rw [string_data_append, string_data_append]
      simp [formatTs]
    rw [hdata]
    have hfmt : ∀ c ∈ formatTsC ts, isWs c = false :=
      fun c hc => (formatTsC_chars ts c hc).1
    rw [noAdjWsB_append_left hfmt]
    have htoks : ∀ tok ∈ rest, tok ≠ [] ∧ ∀ c ∈ tok, isWs c = false := by
      intro tok hm
      exact splitWsC_tokens line.data tok (hsp ▸ List.mem_cons_of_mem date hm)
    obtain ⟨hJ, hH⟩ := joinSpaceC_noAdjWs rest htoks
    rw [hmsg]
    show noAdjWsB (' ' :: joinSpaceC rest) = true
    cases hj : joinSpaceC rest with
    | nil => rfl
    | cons r rrest =>
      have hr : isWs r = false := hH r (by rw [hj]; rfl)
      rw [show noAdjWsB (' ' :: r :: rrest)
          = ((!(isWs ' ' && isWs r)) && noAdjWsB (r :: rrest)) from rfl, hr]
      rw [hj] at hJ
      simpa using hJ

/-- C10 witness: a dmesg-style line with a comma separator and a run of
spaces inside the message is re-serialised with a dot separator and
single spaces. -/
theorem claim_C10_witness :
    get_line_split (some (.ok "2024-01-01T00:00:05,000000+00:00 usb   reset")) =
      .ok ⟨2024, 1, 1, 0, 0, 5, 0, 0⟩ "usb reset" ∧
    ((collect_syslog_line true ⟨2024, 1, 1, 0, 0, 0, 0, 0⟩
        "2024-01-01T00:00:05,000000+00:00 usb   reset" =
        .written (formatTs ⟨2024, 1, 1, 0, 0, 5, 0, 0⟩ ++ " " ++ "usb reset") ∨
      collect_syslog_line true ⟨2024, 1, 1, 0, 0, 0, 0, 0⟩
        "2024-01-01T00:00:05,000000+00:00 usb   reset" = .filtered) ∧
      ("usb reset" : String).data =
        joinSpaceC ((splitWsC ("2024-01-01T00:00:05,000000+00:00 usb   reset" : String).data).drop 1) ∧
      (∀ c ∈ (formatTs ⟨2024, 1, 1, 0, 0, 5, 0, 0⟩).data, c ≠ ',') ∧
      noAdjWsB ((formatTs ⟨2024, 1, 1, 0, 0, 5, 0, 0⟩ ++ " " ++ "usb reset").data) = true) :=
  ⟨by decide,
    claim_C10_reserialisation true ⟨2024, 1, 1, 0, 0, 0, 0, 0⟩
      "2024-01-01T00:00:05,000000+00:00 usb   reset" ⟨2024, 1, 1, 0, 0, 5, 0, 0⟩
      "usb reset" (by decide)⟩

/-- C1 counterexample: both inputs carry valid timestamps, yet because
the interactive log is not itself in chronological order the merged
output is not non-decreasing - the claim as stated omits the necessary
hypothesis that each input is individually sorted. -/
theorem claim_C1_counterexample :
    validB ["2024-01-01T00:00:01.000000+0000 sys-a"] = true ∧
    validB ["2024-01-01T00:00:02.000000+0000 in-b",
      "2024-01-01T00:00:00.000000+0000 in-c"] = true ∧
    merge_logs ["2024-01-01T00:00:01.000000+0000 sys-a"]
        ["2024-01-01T00:00:02.000000+0000 in-b",
          "2024-01-01T00:00:00.000000+0000 in-c"] =
      some ["2024-01-01T00:00:01.000000+0000 sys-a",
        "2024-01-01T00:00:02.000000+0000 in-b",
        "2024-01-01T00:00:00.000000+0000 in-c"] ∧
    chainB ["2024-01-01T00:00:01.000000+0000 sys-a",
      "2024-01-01T00:00:02.000000+0000 in-b",
      "2024-01-01T00:00:00.000000+0000 in-c"] = false := by
  decide

/-- C1 (amended with the hypothesis that each input is individually in
non-decreasing timestamp order): the merge succeeds, its output has
non-decreasing timestamps, its multiset of lines is exactly the union of
the two inputs (no loss, no duplication), and each input occurs in the
output as a subsequence (relative order within a source preserved). -/
theorem claim_C1_sorted_merge (A B : List String)
    (hVA : validB A = true) (hVB : validB B = true)
    (hCA : chainB A = true) (hCB : chainB B = true) :
    ∃ out, merge_logs A B = some out ∧ out.Perm (A ++ B) ∧
      A.Sublist out ∧ B.Sublist out ∧ chainB out = true :=
  merge_logs_valid_sorted A B hVA hVB hCA hCB

/-- C1 witness: the spec's own concrete scenario (section 8). -/
theorem claim_C1_witness :
    (validB ["2024-01-01T00:00:01.000000+0000 sys-a"] = true ∧
      validB ["2024-01-01T00:00:00.000000+0000 in-b",
        "2024-01-01T00:00:02.000000+0000 in-c"] = true ∧
      chainB ["2024-01-01T00:00:01.000000+0000 sys-a"] = true ∧
      chainB ["2024-01-01T00:00:00.000000+0000 in-b",
        "2024-01-01T00:00:02.000000+0000 in-c"] = true) ∧
    (∃ out, merge_logs ["2024-01-01T00:00:01.000000+0000 sys-a"]
          ["2024-01-01T00:00:00.000000+0000 in-b",
            "2024-01-01T00:00:02.000000+0000 in-c"] = some out ∧
        out.Perm (["2024-01-01T00:00:01.000000+0000 sys-a"] ++
          ["2024-01-01T00:00:00.000000+0000 in-b",
            "2024-01-01T00:00:02.000000+0000 in-c"]) ∧
        (["2024-01-01T00:00:01.000000+0000 sys-a"] : List String).Sublist out ∧
        (["2024-01-01T00:00:00.000000+0000 in-b",
          "2024-01-01T00:00:02.000000+0000 in-c"] : List String).Sublist out ∧
        chainB out = true) :=
  ⟨⟨by decide, by decide, by decide, by decide⟩,
    claim_C1_sorted_merge _ _ (by decide) (by decide) (by decide) (by decide)⟩

/-- C2: whenever the two pending candidates carry identical timestamps,
the merge emits source B's (stdin's) candidate before source A's
(syslog's): the comparison `syslog_date < stdin_date` is false on a tie,
so the `else` branch writes the stdin line first. -/
theorem claim_C2_tie_emits_stdin_first (fuel : Nat) (sl : String) (st : Ts)
    (sr : List String) (il : String) (it : Ts) (ir out : List String)
    (heq : st.instantMicros = it.instantMicros)
    (hrun : mergeMain (fuel + 1) sl st sr il it ir = some out) :
    out.head? = some il :=
  mergeMain_tie_stdin_first fuel sl st sr il it ir out heq hrun

/-- C2 witness: the spec's equal-timestamp scenario, one line per source:
the output places B's line first, then A's. -/
theorem claim_C2_witness :
    ((⟨2024, 1, 1, 0, 0, 7, 0, 0⟩ : Ts).instantMicros =
      (⟨2024, 1, 1, 0, 0, 7, 0, 0⟩ : Ts).instantMicros ∧
    mergeMain 1 "2024-01-01T00:00:07.000000+0000 sys-a" ⟨2024, 1, 1, 0, 0, 7, 0, 0⟩ []
        "2024-01-01T00:00:07.000000+0000 in-b" ⟨2024, 1, 1, 0, 0, 7, 0, 0⟩ [] =
      some ["2024-01-01T00:00:07.000000+0000 in-b",
        "2024-01-01T00:00:07.000000+0000 sys-a"]) ∧
    (["2024-01-01T00:00:07.000000+0000 in-b",
      "2024-01-01T00:00:07.000000+0000 sys-a"] : List String).head? =
      some "2024-01-01T00:00:07.000000+0000 in-b" :=
  ⟨⟨rfl, by decide⟩,
    claim_C2_tie_emits_stdin_first 0 "2024-01-01T00:00:07.000000+0000 sys-a"
      ⟨2024, 1, 1, 0, 0, 7, 0, 0⟩ [] "2024-01-01T00:00:07.000000+0000 in-b"
      ⟨2024, 1, 1, 0, 0, 7, 0, 0⟩ []
      ["2024-01-01T00:00:07.000000+0000 in-b", "2024-01-01T00:00:07.000000+0000 sys-a"]
      rfl (by decide)⟩

/-- C3 counterexample: the claim asserts unconditionally that a parse
failure in A truncates A and drains B.  But when B exhausts first, the
`end_stdin` branch drains A raw: A's failing line (and everything after
it) is emitted, so A was not treated as exhausted at that line. -/
theorem claim_C3_counterexample :
    validB ["2024-01-01T00:00:05.000000+0000 sys-a"] = true ∧
    validB ["2024-01-01T00:00:01.000000+0000 in-b"] = true ∧
    lineErrB "### corrupted ###" = true ∧
    merge_logs ["2024-01-01T00:00:05.000000+0000 sys-a", "### corrupted ###"]
        ["2024-01-01T00:00:01.000000+0000 in-b"] =
      some ["2024-01-01T00:00:01.000000+0000 in-b",
        "2024-01-01T00:00:05.000000+0000 sys-a", "### corrupted ###"] ∧
    "### corrupted ###" ∈ (["2024-01-01T00:00:01.000000+0000 in-b",
      "2024-01-01T00:00:05.000000+0000 sys-a", "### corrupted ###"] : List String) := by
  decide

/-- C3 (amended with the condition that the failing line is reached
while B still holds a pending candidate - B contains a line later than
all of A's valid prefix): A is then treated as exhausted at the failing
line, exactly A's valid prefix and all of B appear in the output (A's
tail from the failing line on is dropped), and each source's relative
order - in particular B's drain in file order - is preserved. -/
theorem claim_C3_parse_failure_exhausts (gA : List String) (bad : String)
    (tA B : List String) (bstar : String)
    (hVG : validB gA = true) (hVB : validB B = true)
    (hbad : lineErrB bad = true) (hmem : bstar ∈ B)
    (hbeats : ∀ a ∈ gA, lineLtB a bstar = true) :
    ∃ out, merge_logs (gA ++ bad :: tA) B = some out ∧ out.Perm (gA ++ B) ∧
      gA.Sublist out ∧ B.Sublist out :=
  merge_logs_syslog_parse_failure gA bad tA B bstar hVG hVB hbad hmem hbeats

/-- C3 witness: one valid syslog line, then a corrupted one, merged
against a later stdin line - the corrupted line and the valid line after
it are dropped, and stdin is drained. -/
theorem claim_C3_witness :
    (validB ["2024-01-01T00:00:01.000000+0000 sys-a"] = true ∧
      validB ["2024-01-01T00:00:02.000000+0000 in-b"] = true ∧
      lineErrB "### corrupted-2 ###" = true ∧
      "2024-01-01T00:00:02.000000+0000 in-b" ∈
        (["2024-01-01T00:00:02.000000+0000 in-b"] : List String) ∧
      (∀ a ∈ (["2024-01-01T00:00:01.000000+0000 sys-a"] : List String),
        lineLtB a "2024-01-01T00:00:02.000000+0000 in-b" = true)) ∧
    (∃ out, merge_logs (["2024-01-01T00:00:01.000000+0000 sys-a"] ++
          "### corrupted-2 ###" :: ["2024-01-01T00:00:09.000000+0000 sys-late"])
          ["2024-01-01T00:00:02.000000+0000 in-b"] = some out ∧
        out.Perm (["2024-01-01T00:00:01.000000+0000 sys-a"] ++
          ["2024-01-01T00:00:02.000000+0000 in-b"]) ∧
        (["2024-01-01T00:00:01.000000+0000 sys-a"] : List String).Sublist out ∧
        (["2024-01-01T00:00:02.000000+0000 in-b"] : List String).Sublist out) :=
  ⟨⟨by decide, by decide, by decide, by decide, by decide⟩,
    claim_C3_parse_failure_exhausts ["2024-01-01T00:00:01.000000+0000 sys-a"]
      "### corrupted-2 ###" ["2024-01-01T00:00:09.000000+0000 sys-late"]
      ["2024-01-01T00:00:02.000000+0000 in-b"] "2024-01-01T00:00:02.000000+0000 in-b"
      (by decide) (by decide) (by decide) (by decide) (by decide)⟩

/-- C4 counterexample: a syslog source whose very first line fails to
parse is NOT treated as empty when the stdin source is empty too: the
`end_stdin` branch drains the syslog file raw, malformed first line
included, whereas merging two genuinely empty sources yields an empty
output. -/
theorem claim_C4_counterexample :
    lineErrB "*** not a timestamp ***" = true ∧
    merge_logs ["*** not a timestamp ***"] [] = some ["*** not a timestamp ***"] ∧
    merge_logs [] [] = some [] := by
  decide

/-- C4 (amended): a stdin source whose first line fails to parse
contributes nothing (the output is the syslog file verbatim, provided
syslog's first line does not panic the look-ahead); a syslog source
whose first line fails to parse contributes nothing provided the stdin
source's first line parses; but when stdin is empty the malformed-headed
syslog file is drained verbatim rather than treated as empty. -/
theorem claim_C4_bad_first_line :
    (∀ (A : List String) (bad : String) (tB : List String),
      lineErrB bad = true → fetchParse A ≠ none →
      merge_logs A (bad :: tB) = some A) ∧
    (∀ (bad : String) (tA : List String) (b : String) (tB : List String),
      lineErrB bad = true → (lineTs b).isSome = true →
      merge_logs (bad :: tA) (b :: tB) = some (b :: tB)) ∧
    (∀ (bad : String) (tA : List String), lineErrB bad = true →
      merge_logs (bad :: tA) [] = some (bad :: tA)) :=
  ⟨merge_logs_bad_first_stdin, merge_logs_bad_first_syslog,
    merge_logs_bad_first_syslog_empty_stdin⟩

/-- C4 witness: all three amended cases at concrete inputs. -/
theorem claim_C4_witness :
    (lineErrB "&&& garbled &&&" = true ∧
      fetchParse ["2024-01-01T00:00:03.000000+0000 sys-a"] ≠ none ∧
      (lineTs "2024-01-01T00:00:04.000000+0000 in-b").isSome = true) ∧
    merge_logs ["2024-01-01T00:00:03.000000+0000 sys-a"]
        ("&&& garbled &&&" :: ["2024-01-01T00:00:04.000000+0000 in-b"]) =
      some ["2024-01-01T00:00:03.000000+0000 sys-a"] ∧
    merge_logs ("&&& garbled &&&" :: [])
        ("2024-01-01T00:00:04.000000+0000 in-b" :: []) =
      some ["2024-01-01T00:00:04.000000+0000 in-b"] ∧
    merge_logs ("&&& garbled &&&" :: []) [] = some ["&&& garbled &&&"] :=
  ⟨⟨by decide, by decide, by decide⟩,
    claim_C4_bad_first_line.1 _ _ _ (by decide) (by decide),
    claim_C4_bad_first_line.2.1 _ _ _ _ (by decide) (by decide),
    claim_C4_bad_first_line.2.2 _ _ (by decide)⟩

/-- C6: merging a syslog log with valid timestamped lines against an
empty stdin log yields the syslog log verbatim, in original order. -/
theorem claim_C6_empty_other_source (A : List String) (hVA : validB A = true) :
    merge_logs A [] = some A :=
  merge_logs_empty_stdin A hVA

/-- C6 witness: a two-line syslog file against an empty stdin file. -/
theorem claim_C6_witness :
    validB ["2024-01-01T00:00:01.000000+0000 one",
      "2024-01-01T00:00:02.000000+0000 two"] = true ∧
    merge_logs ["2024-01-01T00:00:01.000000+0000 one",
        "2024-01-01T00:00:02.000000+0000 two"] [] =
      some ["2024-01-01T00:00:01.000000+0000 one",
        "2024-01-01T00:00:02.000000+0000 two"] :=
  ⟨by decide, claim_C6_empty_other_source _ (by decide)⟩
